import Mathlib

/-!
Shallow embedding of the dexy scanner (src/main.rs): a concurrent
directory-traversal-and-hashing engine.  Paths are modelled as lists of
components, each component a list of bytes (Rust `PathBuf` / `OsStr` need
not be valid UTF-8).  File contents are byte lists.  The SHA-256 digest
engine (external `sha2` crate) is abstracted as a parameter
`sha : Bytes → String`; every theorem holds for an arbitrary digest
function.  Fallible operations return `Except PanicE`, where `.error .panic`
models a Rust `unwrap`/`expect` panic.
-/

namespace Dexy

/-- Byte string: the bytes of one path component, one file's content, or one
rendered path. -/
abbrev Bytes := List Nat

/-- Absolute filesystem path as a list of components (no separators inside a
component). -/
abbrev FsPath := List Bytes

/-- Continuation byte of a UTF-8 multi-byte sequence (0x80–0xBF). -/
def isCont (b : Nat) : Bool := 0x80 ≤ b && b ≤ 0xBF

/-- UTF-8 validity of a byte string; `Path::to_str` in Rust succeeds exactly
on valid UTF-8. -/
def validUtf8 : Bytes → Bool
  | [] => true
  | b1 :: rest =>
    if b1 ≤ 0x7F then validUtf8 rest
    else if 0xC2 ≤ b1 && b1 ≤ 0xDF then
      match rest with
      | b2 :: rest2 => isCont b2 && validUtf8 rest2
      | [] => false
    else if b1 = 0xE0 then
      match rest with
      | b2 :: b3 :: rest3 => (0xA0 ≤ b2 && b2 ≤ 0xBF) && isCont b3 && validUtf8 rest3
      | _ => false
    else if (0xE1 ≤ b1 && b1 ≤ 0xEC) || b1 = 0xEE || b1 = 0xEF then
      match rest with
      | b2 :: b3 :: rest3 => isCont b2 && isCont b3 && validUtf8 rest3
      | _ => false
    else if b1 = 0xED then
      match rest with
      | b2 :: b3 :: rest3 => (0x80 ≤ b2 && b2 ≤ 0x9F) && isCont b3 && validUtf8 rest3
      | _ => false
    else if b1 = 0xF0 then
      match rest with
      | b2 :: b3 :: b4 :: rest4 =>
          (0x90 ≤ b2 && b2 ≤ 0xBF) && isCont b3 && isCont b4 && validUtf8 rest4
      | _ => false
    else if 0xF1 ≤ b1 && b1 ≤ 0xF3 then
      match rest with
      | b2 :: b3 :: b4 :: rest4 => isCont b2 && isCont b3 && isCont b4 && validUtf8 rest4
      | _ => false
    else if b1 = 0xF4 then
      match rest with
      | b2 :: b3 :: b4 :: rest4 =>
          (0x80 ≤ b2 && b2 ≤ 0x8F) && isCont b3 && isCont b4 && validUtf8 rest4
      | _ => false
    else false

/-- Test whether `needle` occurs at the very start of `haystack`. -/
def leadsWith : Bytes → Bytes → Bool
  | [], _ => true
  | _ :: _, [] => false
  | a :: as, b :: bs => a == b && leadsWith as bs

/-- Substring search on byte strings: Rust `str::contains` over the
underlying UTF-8 bytes. -/
def containsSeq (needle : Bytes) : Bytes → Bool
  | [] => leadsWith needle []
  | b :: bs => leadsWith needle (b :: bs) || containsSeq needle bs

/-- Render an absolute path: a `/` (byte 47) before every component, as
produced by `canonicalize` and `DirEntry::path` on Unix. -/
def pathBytes : FsPath → Bytes
  | [] => []
  | c :: cs => 47 :: (c ++ pathBytes cs)

/-- Outcome marker for a Rust `unwrap`/`expect` failure. -/
inductive PanicE where
  | panic
deriving DecidableEq

/-- Rust `Path::to_str`: `some` of the same bytes when they are valid UTF-8,
`none` otherwise (main.rs line 134 calls `.unwrap()` on this). -/
def toStr (b : Bytes) : Option Bytes :=
  if validUtf8 b then some b else none

/-- Hidden-entry check of main.rs line 134:
`!args.include_hidden && s.path().to_str().unwrap().contains("/.")`.
The `&&` short-circuits, so with `include_hidden` set the `unwrap` is never
reached; otherwise a non-UTF-8 path panics.  `[47, 46]` is the byte string
`"/."`. -/
def hiddenCheck (includeHidden : Bool) (fullPath : FsPath) : Except PanicE Bool :=
  if includeHidden then .ok false
  else
    match toStr (pathBytes fullPath) with
    | some s => .ok (containsSeq [47, 46] s)
    | none => .error .panic

/-- File type tags of main.rs lines 85–90. -/
inductive FileType where
  | symLink
  | directory
  | file
deriving DecidableEq

/-- Optional metadata record of main.rs lines 76–83. -/
structure FileAttributes where
  size : Nat
  created_date : Int
  accessed_date : Int
  edit_date : Int
  file_type : FileType
deriving DecidableEq

/-- One hashed leaf file, main.rs lines 66–74. -/
structure ScannedFile where
  hash : String
  path : FsPath
  attributes : Option FileAttributes
deriving DecidableEq

/-- Result of `symlink_metadata`: length plus the three timestamps as
reported by the OS.  A timestamp is `none` when the platform cannot supply
it (`metadata.created()` returns `Err`); `some t` is a clock value `t`
seconds relative to the Unix epoch, negative when the clock is before the
epoch (in which case `duration_since(UNIX_EPOCH).expect(..)` panics). -/
structure Metadata where
  len : Nat
  created : Option Int
  accessed : Option Int
  modified : Option Int
  isSymlink : Bool
  isDir : Bool
deriving DecidableEq

/-- Command-line flags consumed by the worker (main.rs lines 21–64; only
the fields the core loop reads). -/
structure Args where
  thread_count : Nat
  ignore_empty : Bool
  include_hidden : Bool
  load_file_attributes : Bool
deriving DecidableEq

/-- Filesystem node as the worker can observe it.  `file` carries content
and metadata; the three error constructors record at which syscall an entry
fails: `statErr` = `symlink_metadata` fails (entry vanished), `openErr` =
metadata succeeds but `File::open` fails (broken symlink target, permission),
`readErr` = the file opens but `io::copy` into the hasher fails mid-read. -/
inductive FsNode where
  | dir (entries : List (Bytes × FsNode))
  | file (content : Bytes) (meta : Metadata)
  | statErr
  | openErr (meta : Metadata)
  | readErr (meta : Metadata)

/-- Look a name up among a directory's entries. -/
def lookupEntry (name : Bytes) : List (Bytes × FsNode) → Option FsNode
  | [] => none
  | (n, node) :: rest => if n = name then some node else lookupEntry name rest

/-- Resolve an absolute path against the filesystem root. -/
def resolve : FsNode → FsPath → Option FsNode
  | node, [] => some node
  | .dir es, c :: cs =>
    match lookupEntry c es with
    | some n => resolve n cs
    | none => none
  | _, _ :: _ => none

/-- Rust `tokio::fs::read_dir` (main.rs line 119): the entry list when the
path resolves to a directory, an error otherwise (missing path, or "Not a
directory" when it resolves to a file). -/
def readDir (fs : FsNode) (p : FsPath) : Except Unit (List (Bytes × FsNode)) :=
  match resolve fs p with
  | some (.dir es) => .ok es
  | _ => .error ()

/-- Warning and error reports printed by the worker while skipping entries
(the `progressbar.println` calls of main.rs). -/
inductive Report where
  | skippedHidden (p : FsPath)
  | skippedBrokenSymlink (p : FsPath)
  | openError (p : FsPath)
  | hashError (p : FsPath)
  | dirError (p : FsPath)
deriving DecidableEq

/-- Outcome of the worker's handling of one directory entry. -/
inductive EntryOutcome where
  | skipped (r : Report)
  | skippedEmpty
  | queued (p : FsPath)
  | hashed (f : ScannedFile)
deriving DecidableEq

/-- Timestamp conversion of main.rs lines 205–225: an `Err` from the
platform query becomes the sentinel `-1`; an `Ok` clock value goes through
`duration_since(UNIX_EPOCH).expect("time went backwards")`, which panics on
a pre-epoch time and otherwise yields the seconds. -/
def secsOrSentinel : Option Int → Except PanicE Int
  | none => .ok (-1)
  | some t => if 0 ≤ t then .ok t else .error .panic

/-- File-type classification of main.rs lines 226–234. -/
def computeFileType (m : Metadata) : FileType :=
  if m.isSymlink then .symLink
  else if m.isDir then .directory
  else .file

/-- Attribute construction of main.rs lines 202–237: `some` attributes when
`load_file_attributes` is set, `none` otherwise. -/
def buildAttributes (load : Bool) (m : Metadata) : Except PanicE (Option FileAttributes) :=
  if load then
    match secsOrSentinel m.created with
    | .error e => .error e
    | .ok c =>
      match secsOrSentinel m.accessed with
      | .error e => .error e
      | .ok a =>
        match secsOrSentinel m.modified with
        | .error e => .error e
        | .ok ed => .ok (some ⟨m.len, c, a, ed, computeFileType m⟩)
  else .ok none

/-- Handling of one directory entry, main.rs lines 131–254: hidden check,
directory test, `symlink_metadata`, empty-file skip, open, hash, attribute
collection.  `dirPath` is the directory being listed, `name` the entry's
own name, `node` what the filesystem holds there. -/
def processEntry (sha : Bytes → String) (args : Args) (dirPath : FsPath)
    (name : Bytes) (node : FsNode) : Except PanicE EntryOutcome :=
  let p := dirPath ++ [name]
  match hiddenCheck args.include_hidden p with
  | .error e => .error e
  | .ok true => .ok (.skipped (.skippedHidden p))
  | .ok false =>
    match node with
    | .dir _ => .ok (.queued p)
    | .statErr => .ok (.skipped (.skippedBrokenSymlink p))
    | .openErr m =>
      if args.ignore_empty && m.len == 0 then .ok .skippedEmpty
      else .ok (.skipped (.openError p))
    | .readErr m =>
      if args.ignore_empty && m.len == 0 then .ok .skippedEmpty
      else .ok (.skipped (.hashError p))
    | .file content m =>
      if args.ignore_empty && m.len == 0 then .ok .skippedEmpty
      else
        match buildAttributes args.load_file_attributes m with
        | .error e => .error e
        | .ok attrs => .ok (.hashed ⟨sha content, p, attrs⟩)

/-- Digest-keyed map, modelling `HashMap<String, Vec<ScannedFile>>` as an
association list (the hash map's bucket order is immaterial). -/
abbrev ScanMap := List (String × List ScannedFile)

/-- Key lookup in a `ScanMap`. -/
def lookupMap : ScanMap → String → Option (List ScannedFile)
  | [], _ => none
  | (k, v) :: rest, h => if k = h then some v else lookupMap rest h

/-- Recording of one hashed file into the worker's per-directory map,
main.rs lines 245–253: `contains_key` then `get_mut(..).push(..)`, else
`insert(hash, vec![file])`. -/
def recordFile (m : ScanMap) (f : ScannedFile) : ScanMap :=
  match lookupMap m f.hash with
  | some _ => m.map (fun kv => if kv.1 = f.hash then (kv.1, kv.2 ++ [f]) else kv)
  | none => m ++ [(f.hash, [f])]

/-- Insertion of one key/value pair with `HashMap` semantics: the value
REPLACES any existing value under the same key. -/
def insertReplace (m : ScanMap) (k : String) (v : List ScannedFile) : ScanMap :=
  match lookupMap m k with
  | some _ => m.map (fun kv => if kv.1 = k then (kv.1, v) else kv)
  | none => m ++ [(k, v)]

/-- Merge of a per-directory map into the global result, main.rs line 262:
`global_result.write().await.extend(result.into_iter())`.  Rust's
`HashMap::extend` inserts every pair, replacing the whole list under a key
that is already present (it does not append to it). -/
def extendMap (g l : ScanMap) : ScanMap :=
  l.foldl (fun acc kv => insertReplace acc kv.1 kv.2) g

/-- Entry loop of main.rs lines 131–255 over one directory's listing,
accumulating discovered subdirectories (`folders`), the per-directory
result map, and the emitted reports.  A panic in entry handling aborts the
whole loop (the worker task dies). -/
def processEntries (sha : Bytes → String) (args : Args) (dirPath : FsPath) :
    List (Bytes × FsNode) → List FsPath → ScanMap → List Report →
    Except PanicE (List FsPath × ScanMap × List Report)
  | [], folders, result, reports => .ok (folders, result, reports)
  | (name, node) :: rest, folders, result, reports =>
    match processEntry sha args dirPath name node with
    | .error e => .error e
    | .ok (.skipped r) => processEntries sha args dirPath rest folders result (reports ++ [r])
    | .ok .skippedEmpty => processEntries sha args dirPath rest folders result reports
    | .ok (.queued p) => processEntries sha args dirPath rest (folders ++ [p]) result reports
    | .ok (.hashed f) => processEntries sha args dirPath rest folders (recordFile result f) reports

/-- Final state of one scan: the global digest map, the reports emitted,
and whether the worker died in a panic. -/
structure ScanOutcome where
  result : ScanMap
  reports : List Report
  panicked : Bool
deriving DecidableEq

/-- Single-worker run of the worker loop (main.rs lines 108–276 with
`thread_count = 1`): pop the queue head, list it, process its entries, push
discovered subdirectories at the tail, merge the local map into the global
one; when the queue is empty the lone worker marks itself idle, the idle
counter reaches `thread_count`, and the loop exits.  `fuel` bounds the
number of iterations; `none` means the fuel ran out before the queue
drained. -/
def scanLoop (sha : Bytes → String) (args : Args) (fs : FsNode) :
    Nat → List FsPath → ScanMap → List Report → Option ScanOutcome
  | _, [], g, rs => some ⟨g, rs, false⟩
  | 0, _ :: _, _, _ => none
  | fuel + 1, p :: rest, g, rs =>
    match readDir fs p with
    | .error _ => scanLoop sha args fs fuel rest g (rs ++ [.dirError p])
    | .ok entries =>
      match processEntries sha args p entries [] [] [] with
      | .error _ => some ⟨g, rs, true⟩
      | .ok (folders, localMap, eReports) =>
          scanLoop sha args fs fuel (rest ++ folders) (extendMap g localMap) (rs ++ eReports)

/-- Path canonicalization as `main` uses it (main.rs lines 309–311): the
path itself when it denotes an existing entry, `none` (a fatal `expect`)
otherwise. -/
def canonicalize (fs : FsNode) (p : FsPath) : Option FsPath :=
  if (resolve fs p).isSome then some p else none

/-- Driver of main.rs `main`: canonicalize the start paths, seed the queue
with them, run the worker loop. -/
def runScan (sha : Bytes → String) (args : Args) (fs : FsNode)
    (starts : List FsPath) (fuel : Nat) : Option ScanOutcome :=
  match starts.mapM (canonicalize fs) with
  | none => none
  | some seeds => scanLoop sha args fs fuel seeds [] []

/-! Concurrent model of the worker pool: the termination-detector state
shared by the `thread_count` workers — the queue, the `num_waiting` atomic
counter, and each worker's local `waiting` flag — with one labelled step
per worker action.  The payload of directory processing is abstracted: a
working worker may later publish an arbitrary list of discovered
subdirectories, which over-approximates the real behaviour and therefore
only strengthens the safety properties proved below. -/

/-- Control position of one worker inside the loop of main.rs lines
108–276: at the loop head (line 108), processing a popped directory
(lines 111–267), or past the loop (line 278). -/
inductive Phase where
  | loopHead
  | working
  | done
deriving DecidableEq

/-- One worker: its phase and its local `waiting` flag (main.rs line 106). -/
structure WState where
  phase : Phase
  waiting : Bool
deriving DecidableEq

/-- Shared state of the pool: the directory queue, the `num_waiting` atomic
counter, and the workers. -/
structure Sys where
  queue : List FsPath
  numWaiting : Nat
  workers : List WState
deriving DecidableEq

/-- Number of workers whose local `waiting` flag is set. -/
def countWaiting (ws : List WState) : Nat :=
  (ws.filter (fun w => w.waiting)).length

/-- Initial pool state (main.rs `main`): queue seeded with the start
directories, counter zero, every worker at the loop head with a clear
flag. -/
def initSys (n : Nat) (seeds : List FsPath) : Sys :=
  ⟨seeds, 0, List.replicate n ⟨.loopHead, false⟩⟩

/-- Interleaved small-step semantics of the pool, one constructor per
worker action.
`exitLoop`: the load at line 108 observes `num_waiting = thread_count` and
the worker leaves the loop.
`popSome`: the worker pops the queue head (line 109); if its flag was set
it decrements the counter and clears the flag (lines 112–115) before
beginning work.
`markIdle`: the pop returns nothing and the flag is clear, so the worker
increments the counter and sets its flag (lines 270–273), then sleeps.
`finishDir`: a working worker publishes the subdirectories it discovered
at the queue tail (line 258) and returns to the loop head. -/
inductive Step (n : Nat) : Sys → Sys → Prop where
  | exitLoop {s : Sys} (i : Nat) (w : Bool) :
      s.workers.get? i = some ⟨.loopHead, w⟩ →
      s.numWaiting = n →
      Step n s ⟨s.queue, s.numWaiting, s.workers.set i ⟨.done, w⟩⟩
  | popSome {s : Sys} (i : Nat) (w : Bool) (p : FsPath) (rest : List FsPath) :
      s.workers.get? i = some ⟨.loopHead, w⟩ →
      s.queue = p :: rest →
      Step n s ⟨rest, if w then s.numWaiting - 1 else s.numWaiting,
        s.workers.set i ⟨.working, false⟩⟩
  | markIdle {s : Sys} (i : Nat) :
      s.workers.get? i = some ⟨.loopHead, false⟩ →
      s.queue = [] →
      Step n s ⟨[], s.numWaiting + 1, s.workers.set i ⟨.loopHead, true⟩⟩
  | finishDir {s : Sys} (i : Nat) (w : Bool) (folders : List FsPath) :
      s.workers.get? i = some ⟨.working, w⟩ →
      Step n s ⟨s.queue ++ folders, s.numWaiting, s.workers.set i ⟨.loopHead, w⟩⟩

/-- States the pool can reach from the seeded initial state. -/
inductive Reachable (n : Nat) (seeds : List FsPath) : Sys → Prop where
  | init : Reachable n seeds (initSys n seeds)
  | step {s s' : Sys} : Reachable n seeds s → Step n s s' → Reachable n seeds s'

/-- Flatten a `ScanMap` to the list of every recorded file. -/
def allFiles (m : ScanMap) : List ScannedFile :=
  m.foldl (fun acc kv => acc ++ kv.2) []

/-- Number of times a path occurs among the recorded files of a result. -/
def countPath (m : ScanMap) (p : FsPath) : Nat :=
  (allFiles m).countP (fun f => decide (f.path = p))

/-! Concrete inputs for the evaluation theorems. -/

/-- Concrete digest function for the concrete-input theorems: the decimal
rendering of the byte list.  It is injective, which is all the
demonstrations require of a digest; every universally quantified theorem
below holds for an arbitrary `sha`. -/
def shaDemo (b : Bytes) : String := toString b

/-- Bytes of `"hello"`. -/
def helloBytes : Bytes := [104, 101, 108, 108, 111]

/-- Bytes of `"world"`. -/
def worldBytes : Bytes := [119, 111, 114, 108, 100]

/-- Metadata of an ordinary regular file of length `n`, all timestamps
available at the epoch. -/
def plainMeta (n : Nat) : Metadata := ⟨n, some 0, some 0, some 0, false, false⟩

/-- Default flags with a single worker: empty files kept, hidden entries
excluded, no attributes. -/
def argsDefault : Args := ⟨1, false, false, false⟩

/-- The spec's concrete scenario (§8): root `r` holds `a` = "hello" and a
subdirectory `d` holding `b` = "hello" and `c` = "world".  Component bytes:
`r` = 114, `a` = 97, `d` = 100, `b` = 98, `c` = 99. -/
def demoFs : FsNode :=
  .dir [([114], .dir [
    ([97], .file helloBytes (plainMeta 5)),
    ([100], .dir [
      ([98], .file helloBytes (plainMeta 5)),
      ([99], .file worldBytes (plainMeta 5))])])]

/-- The record the scan builds for `/r/a`. -/
def fileA : ScannedFile := ⟨shaDemo helloBytes, [[114], [97]], none⟩

/-- The record the scan builds for `/r/d/b`. -/
def fileB : ScannedFile := ⟨shaDemo helloBytes, [[114], [100], [98]], none⟩

/-- The record the scan builds for `/r/d/c`. -/
def fileC : ScannedFile := ⟨shaDemo worldBytes, [[114], [100], [99]], none⟩

/-- C1: the claim — identical-content files that are both successfully
hashed end in the same list of the final result, because recording appends
and merges lose nothing — FAILS on the code.  On the spec's own §8 scenario
(`/r/a` = "hello", `/r/d/b` = "hello", `/r/d/c` = "world"), both copies of
"hello" are hashed successfully into identical digests, yet the final map's
list under that digest holds only `/r/d/b`: the merge at main.rs line 262
uses `HashMap::extend`, which REPLACES the previously recorded list for an
existing digest instead of appending, so `/r/a` is lost when the second
directory is merged. -/
theorem c1_merge_replaces_and_loses_duplicate :
    processEntry shaDemo argsDefault [[114]] [97]
        (.file helloBytes (plainMeta 5)) = .ok (.hashed fileA) ∧
    processEntry shaDemo argsDefault [[114], [100]] [98]
        (.file helloBytes (plainMeta 5)) = .ok (.hashed fileB) ∧
    fileA.hash = fileB.hash ∧
    (runScan shaDemo argsDefault demoFs [[[114]]] 10).map
        (fun o => lookupMap o.result (shaDemo helloBytes)) = some (some [fileB]) := by
  refine ⟨rfl, rfl, rfl, by decide⟩

/-- C2: the claim — the scan terminates and every reachable, non-hidden,
non-empty file is represented exactly once in the final result — FAILS on
the code.  On the §8 scenario the single-worker scan terminates without
panic, `/r/a` is a reachable non-hidden non-empty regular file whose entry
hashes successfully, yet it is represented zero times in the final result:
the replacing merge of main.rs line 262 dropped it. -/
theorem c2_reachable_file_lost_from_result :
    processEntry shaDemo argsDefault [[114]] [97]
        (.file helloBytes (plainMeta 5)) = .ok (.hashed fileA) ∧
    (runScan shaDemo argsDefault demoFs [[[114]]] 10).map
        (fun o => (countPath o.result fileA.path, o.panicked)) = some (0, false) := by
  refine ⟨rfl, by decide⟩

/-- Metadata of a zero-byte regular file with all timestamps available. -/
def emptyMeta : Metadata := ⟨0, some 0, some 0, some 0, false, false⟩

/-- Flags of a single-worker run with `--ignore-empty`. -/
def argsIgnoreEmpty : Args := ⟨1, true, false, false⟩

/-- Root `r` with sibling subdirectories `1` (byte 49) and `2` (byte 50),
each holding one zero-byte file named `e` (byte 101). -/
def emptyFs : FsNode :=
  .dir [([114], .dir [
    ([49], .dir [([101], .file [] emptyMeta)]),
    ([50], .dir [([101], .file [] emptyMeta)])])]

/-- The record the scan builds for the zero-byte file `/r/1/e`. -/
def fileE1 : ScannedFile := ⟨shaDemo [], [[114], [49], [101]], none⟩

/-- The record the scan builds for the zero-byte file `/r/2/e`. -/
def fileE2 : ScannedFile := ⟨shaDemo [], [[114], [50], [101]], none⟩

/-- C7: the claim — with ignore-empty false every zero-byte file is present
in the result with the digest of empty content — FAILS on the code.  The
exclusion half holds: with ignore-empty set a scan of two zero-byte files
yields an empty result.  With ignore-empty clear, the zero-byte file
`/r/1/e` is hashed to the digest of empty content, but the final result
holds only `/r/2/e` under that digest: both empty files share one digest
key, and the replacing merge of main.rs line 262 drops the earlier one. -/
theorem c7_empty_file_policy_and_lost_duplicate :
    (runScan shaDemo argsIgnoreEmpty emptyFs [[[114]]] 10).map
        (fun o => (o.result, o.panicked)) = some ([], false) ∧
    processEntry shaDemo argsDefault [[114], [49]] [101]
        (.file [] emptyMeta) = .ok (.hashed fileE1) ∧
    fileE1.hash = shaDemo [] ∧
    (runScan shaDemo argsDefault emptyFs [[[114]]] 10).map
        (fun o => (lookupMap o.result (shaDemo []), countPath o.result fileE1.path)) =
      some (some [fileE2], 0) := by
  refine ⟨by decide, rfl, rfl, by decide⟩

/-- C10: a start path that denotes an existing regular file canonicalizes
and is seeded into the queue, the attempt to list it as a directory fails
and is reported as a directory-local error, and the scan ends with an empty
result — the file is never hashed.  Holds for every filesystem, digest
function, flag set and fuel. -/
theorem c10_start_path_file_not_hashed (sha : Bytes → String) (args : Args)
    (fs : FsNode) (p : FsPath) (content : Bytes) (m : Metadata) (fuel : Nat)
    (h : resolve fs p = some (.file content m)) :
    canonicalize fs p = some p ∧
    runScan sha args fs [p] (fuel + 1) = some ⟨[], [.dirError p], false⟩ := by
  have hcanon : canonicalize fs p = some p := by
    simp [canonicalize, h]
  refine ⟨hcanon, ?_⟩
  simp only [runScan, List.mapM, List.mapM.loop, hcanon]
  simp [scanLoop, readDir, h]

/-- Witness for `c10_start_path_file_not_hashed`: a root whose entry `f`
(byte 102) is a regular file, scanned with `/f` as the start path. -/
theorem c10_start_path_file_not_hashed_witness :
    canonicalize (.dir [([102], .file helloBytes (plainMeta 5))]) [[102]] = some [[102]] ∧
    runScan shaDemo argsDefault (.dir [([102], .file helloBytes (plainMeta 5))])
        [[[102]]] 1 = some ⟨[], [.dirError [[102]]], false⟩ :=
  c10_start_path_file_not_hashed shaDemo argsDefault
    (.dir [([102], .file helloBytes (plainMeta 5))]) [[102]] helloBytes (plainMeta 5) 0 rfl

/-- C9: with hidden-entry inclusion disabled (the default), any encountered
entry whose full path is not valid UTF-8 makes the hidden check panic (the
`unwrap` of `to_str` at main.rs line 134) instead of skipping or processing
the entry, and the panic aborts the worker's whole directory loop. -/
theorem c9_non_utf8_path_panics (sha : Bytes → String) (args : Args)
    (dirPath : FsPath) (name : Bytes) (node : FsNode)
    (hinc : args.include_hidden = false)
    (hbad : validUtf8 (pathBytes (dirPath ++ [name])) = false) :
    processEntry sha args dirPath name node = .error .panic ∧
    ∀ rest folders result reports,
      processEntries sha args dirPath ((name, node) :: rest) folders result reports =
        .error .panic := by
  have hpe : processEntry sha args dirPath name node = .error .panic := by
    simp [processEntry, hiddenCheck, hinc, toStr, hbad]
  refine ⟨hpe, fun rest folders result reports => ?_⟩
  simp [processEntries, hpe]

/-- Witness for `c9_non_utf8_path_panics`: the entry named with the single
byte 0xFF (never valid UTF-8) inside directory `/a`, under default flags. -/
theorem c9_non_utf8_path_panics_witness :
    processEntry shaDemo argsDefault [[97]] [255] .statErr = .error .panic ∧
    ∀ rest folders result reports,
      processEntries shaDemo argsDefault [[97]] (([255], .statErr) :: rest)
        folders result reports = .error .panic :=
  c9_non_utf8_path_panics shaDemo argsDefault [[97]] [255] .statErr rfl (by decide)

/-- Outcome of `secsOrSentinel` when every available clock value is at or
after the epoch: an `ok` that is the sentinel `-1` exactly on the
unavailable case. -/
theorem secsOrSentinel_ok (o : Option Int) (h : ∀ t, o = some t → 0 ≤ t) :
    ∃ v : Int, secsOrSentinel o = .ok v ∧ (o = none → v = -1) := by
  cases o with
  | none => exact ⟨-1, rfl, fun _ => rfl⟩
  | some t =>
    refine ⟨t, ?_, fun hc => by cases hc⟩
    simp [secsOrSentinel, h t rfl]

/-- C8: with attribute collection enabled, a timestamp query the platform
cannot satisfy (an `Err` from `created()`, `accessed()` or `modified()`,
main.rs lines 205–225) records the sentinel `-1` in the corresponding
attribute field, and the entry still succeeds (it is hashed and recorded);
an unavailable timestamp never fails the entry.  Clock values that are
available are assumed to be at or after the epoch (a pre-epoch clock trips
the separate `expect("time went backwards")`). -/
theorem c8_unavailable_timestamp_is_sentinel (sha : Bytes → String) (args : Args)
    (dirPath : FsPath) (name : Bytes) (content : Bytes) (m : Metadata)
    (hload : args.load_file_attributes = true)
    (hhid : hiddenCheck args.include_hidden (dirPath ++ [name]) = .ok false)
    (hskip : (args.ignore_empty && m.len == 0) = false)
    (hc : ∀ t, m.created = some t → 0 ≤ t)
    (ha : ∀ t, m.accessed = some t → 0 ≤ t)
    (hm : ∀ t, m.modified = some t → 0 ≤ t) :
    ∃ attrs : FileAttributes,
      processEntry sha args dirPath name (.file content m) =
        .ok (.hashed ⟨sha content, dirPath ++ [name], some attrs⟩) ∧
      (m.created = none → attrs.created_date = -1) ∧
      (m.accessed = none → attrs.accessed_date = -1) ∧
      (m.modified = none → attrs.edit_date = -1) := by
  obtain ⟨vc, hvc, hvc1⟩ := secsOrSentinel_ok m.created hc
  obtain ⟨va, hva, hva1⟩ := secsOrSentinel_ok m.accessed ha
  obtain ⟨vm, hvm, hvm1⟩ := secsOrSentinel_ok m.modified hm
  refine ⟨⟨m.len, vc, va, vm, computeFileType m⟩, ?_, hvc1, hva1, hvm1⟩
  simp [processEntry, hhid, hskip, buildAttributes, hload, hvc, hva, hvm]

/-- Witness for `c8_unavailable_timestamp_is_sentinel`: a file of length 5
whose three timestamp queries all fail, scanned with attribute loading on. -/
theorem c8_unavailable_timestamp_is_sentinel_witness :
    ∃ attrs : FileAttributes,
      processEntry shaDemo ⟨1, false, false, true⟩ [[97]] [98] (.file helloBytes
          ⟨5, none, none, none, false, false⟩) =
        .ok (.hashed ⟨shaDemo helloBytes, [[97], [98]], some attrs⟩) ∧
      (some (5 : Nat) = none → attrs.created_date = -1) ∧
      (some (5 : Nat) = none → attrs.accessed_date = -1) ∧
      (some (5 : Nat) = none → attrs.edit_date = -1) := by
  obtain ⟨attrs, h1, h2, h3, h4⟩ := c8_unavailable_timestamp_is_sentinel shaDemo
    ⟨1, false, false, true⟩ [[97]] [98] helloBytes ⟨5, none, none, none, false, false⟩
    rfl rfl rfl (fun t ht => by cases ht) (fun t ht => by cases ht) (fun t ht => by cases ht)
  exact ⟨attrs, h1, fun hh => h2 rfl, fun hh => h3 rfl, fun hh => h4 rfl⟩

/-- C4: every per-entry failure — stat failure (`symlink_metadata` error),
open failure (including a broken symlink target), read or hash failure —
causes only that entry to be skipped with a report: the directory loop
continues over the remaining entries exactly as if the failing entry were
absent but for the appended report, and the failure never panics or aborts
the scan.  Hypotheses: the entry is not filtered out earlier by the hidden
check or the empty-file skip, so the failing syscall is actually reached. -/
theorem c4_entry_failure_skips_only_that_entry (sha : Bytes → String) (args : Args)
    (dirPath : FsPath) (name : Bytes) (node : FsNode)
    (hhid : hiddenCheck args.include_hidden (dirPath ++ [name]) = .ok false)
    (hfail : node = .statErr ∨
      (∃ m, node = .openErr m ∧ (args.ignore_empty && m.len == 0) = false) ∨
      (∃ m, node = .readErr m ∧ (args.ignore_empty && m.len == 0) = false)) :
    ∃ rep : Report,
      processEntry sha args dirPath name node = .ok (.skipped rep) ∧
      ∀ rest folders result reports,
        processEntries sha args dirPath ((name, node) :: rest) folders result reports =
          processEntries sha args dirPath rest folders result (reports ++ [rep]) := by
  have hstep : ∀ rep, processEntry sha args dirPath name node = .ok (.skipped rep) →
      ∀ rest folders result reports,
        processEntries sha args dirPath ((name, node) :: rest) folders result reports =
          processEntries sha args dirPath rest folders result (reports ++ [rep]) := by
    intro rep hpe rest folders result reports
    simp [processEntries, hpe]
  rcases hfail with hstat | ⟨m, hopen, hlen⟩ | ⟨m, hread, hlen⟩
  · subst hstat
    have hpe : processEntry sha args dirPath name .statErr =
        .ok (.skipped (.skippedBrokenSymlink (dirPath ++ [name]))) := by
      simp [processEntry, hhid]
    exact ⟨_, hpe, hstep _ hpe⟩
  · subst hopen
    have hpe : processEntry sha args dirPath name (.openErr m) =
        .ok (.skipped (.openError (dirPath ++ [name]))) := by
      simp [processEntry, hhid, hlen]
    exact ⟨_, hpe, hstep _ hpe⟩
  · subst hread
    have hpe : processEntry sha args dirPath name (.readErr m) =
        .ok (.skipped (.hashError (dirPath ++ [name]))) := by
      simp [processEntry, hhid, hlen]
    exact ⟨_, hpe, hstep _ hpe⟩

/-- Witness for `c4_entry_failure_skips_only_that_entry`: an entry named
`g` (byte 103) in directory `/a` whose `symlink_metadata` call fails. -/
theorem c4_entry_failure_skips_only_that_entry_witness :
    ∃ rep : Report,
      processEntry shaDemo argsDefault [[97]] [103] .statErr = .ok (.skipped rep) ∧
      ∀ rest folders result reports,
        processEntries shaDemo argsDefault [[97]] (([103], .statErr) :: rest)
            folders result reports =
          processEntries shaDemo argsDefault [[97]] rest folders result (reports ++ [rep]) :=
  c4_entry_failure_skips_only_that_entry shaDemo argsDefault [[97]] [103] .statErr
    rfl (Or.inl rfl)

/-- Occurrences of `"/."` in `c ++ r` are occurrences in `r` whenever the
separator byte 47 does not occur in `c`. -/
theorem containsSeq_append_no47 : ∀ (c r : Bytes), 47 ∉ c →
    containsSeq [47, 46] (c ++ r) = containsSeq [47, 46] r
  | [], _, _ => rfl
  | x :: xs, r, h47 => by
    have hx : (47 == x) = false := by
      rw [beq_eq_false_iff_ne]
      intro h
      exact h47 (by rw [h]; exact List.mem_cons_self x xs)
    have ih := containsSeq_append_no47 xs r (fun hm => h47 (List.mem_cons_of_mem x hm))
    simp [containsSeq, leadsWith, hx, ih]

/-- Characterization of the `"/."` test on a rendered absolute path whose
components are nonempty and free of the separator byte: the path contains
`"/."` exactly when some component begins with the marker byte 46. -/
theorem containsSeq_pathBytes_iff : ∀ (p : FsPath),
    (∀ c ∈ p, c ≠ [] ∧ 47 ∉ c) →
    (containsSeq [47, 46] (pathBytes p) = true ↔ ∃ c ∈ p, c.head? = some 46)
  | [], _ => by simp [pathBytes, containsSeq, leadsWith]
  | c :: cs, hc => by
    obtain ⟨hne, h47⟩ := hc c (List.mem_cons_self c cs)
    have ih := containsSeq_pathBytes_iff cs (fun d hd => hc d (List.mem_cons_of_mem c hd))
    cases c with
    | nil => exact absurd rfl hne
    | cons y ys =>
      have hy : (47 == y) = false := by
        rw [beq_eq_false_iff_ne]
        intro h
        exact h47 (by rw [h]; exact List.mem_cons_self y ys)
      have happ := containsSeq_append_no47 ys (pathBytes cs)
        (fun hm => h47 (List.mem_cons_of_mem y hm))
      have hunf : containsSeq [47, 46] (pathBytes ((y :: ys) :: cs)) =
          ((46 == y) || containsSeq [47, 46] (pathBytes cs)) := by
        show containsSeq [47, 46] (47 :: (y :: (ys ++ pathBytes cs))) = _
        simp only [containsSeq, leadsWith, happ, hy]
        simp
      rw [hunf]
      simp only [Bool.or_eq_true, beq_iff_eq, ih, List.mem_cons, List.head?]
      constructor
      · rintro (h | h)
        · exact ⟨y :: ys, Or.inl rfl, by rw [h]⟩
        · obtain ⟨d, hd, hh⟩ := h
          exact ⟨d, Or.inr hd, hh⟩
      · rintro ⟨d, hd | hd, hh⟩
        · subst hd
          injection hh with h
          exact Or.inl h.symm
        · exact Or.inr ⟨d, hd, hh⟩

/-- Entry handling reports an entry as hidden only through the hidden
check: when that check yields false the outcome is never `skippedHidden`. -/
theorem processEntry_not_hidden_of_ok_false (sha : Bytes → String) (args : Args)
    (dirPath : FsPath) (name : Bytes) (node : FsNode)
    (h : hiddenCheck args.include_hidden (dirPath ++ [name]) = .ok false) :
    processEntry sha args dirPath name node ≠
      .ok (.skipped (.skippedHidden (dirPath ++ [name]))) := by
  intro hcontra
  cases node with
  | dir es => simp [processEntry, h] at hcontra
  | statErr => simp [processEntry, h] at hcontra
  | file content m =>
    simp only [processEntry, h] at hcontra
    split at hcontra
    · simp at hcontra
    · split at hcontra <;> simp at hcontra
  | openErr m =>
    simp only [processEntry, h] at hcontra
    split at hcontra <;> simp at hcontra
  | readErr m =>
    simp only [processEntry, h] at hcontra
    split at hcontra <;> simp at hcontra

/-- C3 counterexample: the claim — with include-hidden false an entry is
skipped if and only if the entry's OWN name begins with the hidden marker —
FAILS on the code.  The entry named `f` (byte 102, no leading `.`) inside
directory `/tmp/.h` is skipped as hidden, because main.rs line 134 tests
the whole rendered path for the substring `"/."`, and the ancestor
component `.h` supplies one. -/
theorem c3_counterexample_entry_without_marker_skipped :
    (([102] : Bytes).head? = some 46 → False) ∧
    processEntry shaDemo argsDefault [[116, 109, 112], [46, 104]] [102]
        (.file helloBytes (plainMeta 5)) =
      .ok (.skipped (.skippedHidden [[116, 109, 112], [46, 104], [102]])) :=
  ⟨by decide, rfl⟩

/-- C3 amended: when include-hidden is false, a directory entry is skipped
as hidden if and only if SOME component of its full absolute path — its own
name or any ancestor directory's name — begins with the hidden-file marker
byte (`.`); when include-hidden is true the entry is never skipped as
hidden.  Stated for entries whose rendered path is valid UTF-8 (otherwise
the check panics) with well-formed components (nonempty, no separator
byte). -/
theorem c3_amended_hidden_skip_iff_component_marker (sha : Bytes → String)
    (args : Args) (dirPath : FsPath) (name : Bytes) (node : FsNode)
    (hvalid : validUtf8 (pathBytes (dirPath ++ [name])) = true)
    (hcomp : ∀ c ∈ dirPath ++ [name], c ≠ [] ∧ 47 ∉ c) :
    processEntry sha args dirPath name node =
        .ok (.skipped (.skippedHidden (dirPath ++ [name]))) ↔
      (args.include_hidden = false ∧ ∃ c ∈ dirPath ++ [name], c.head? = some 46) := by
  have hiff := containsSeq_pathBytes_iff (dirPath ++ [name]) hcomp
  cases hinc : args.include_hidden with
  | true =>
    have hh : hiddenCheck args.include_hidden (dirPath ++ [name]) = .ok false := by
      simp [hiddenCheck, hinc]
    constructor
    · intro hcontra
      exact absurd hcontra (processEntry_not_hidden_of_ok_false sha args dirPath name node hh)
    · rintro ⟨hfalse, -⟩
      exact Bool.noConfusion hfalse
  | false =>
    cases hcs : containsSeq [47, 46] (pathBytes (dirPath ++ [name])) with
    | false =>
      have hh : hiddenCheck args.include_hidden (dirPath ++ [name]) = .ok false := by
        simp [hiddenCheck, hinc, toStr, hvalid, hcs]
      constructor
      · intro hcontra
        exact absurd hcontra (processEntry_not_hidden_of_ok_false sha args dirPath name node hh)
      · rintro ⟨-, hex⟩
        have hcs2 := hiff.mpr hex
        rw [hcs] at hcs2
        cases hcs2
    | true =>
      have hh : processEntry sha args dirPath name node =
          .ok (.skipped (.skippedHidden (dirPath ++ [name]))) := by
        simp [processEntry, hiddenCheck, hinc, toStr, hvalid, hcs]
      rw [hh]
      exact ⟨fun _ => ⟨rfl, hiff.mp hcs⟩, fun _ => rfl⟩

/-- Witness for `c3_amended_hidden_skip_iff_component_marker`: the `/tmp/.h`
entry `f` of the counterexample is indeed skipped because the component
`.h` begins with the marker. -/
theorem c3_amended_hidden_skip_iff_component_marker_witness :
    processEntry shaDemo argsDefault [[116, 109, 112], [46, 104]] [102] .statErr =
      .ok (.skipped (.skippedHidden [[116, 109, 112], [46, 104], [102]])) :=
  (c3_amended_hidden_skip_iff_component_marker shaDemo argsDefault
      [[116, 109, 112], [46, 104]] [102] .statErr (by decide) (by decide)).mpr
    ⟨rfl, ⟨[46, 104], by decide, rfl⟩⟩

/-- Count of set flags over a cons cell. -/
theorem countWaiting_cons (z : WState) (l : List WState) :
    countWaiting (z :: l) = (if z.waiting then 1 else 0) + countWaiting l := by
  simp only [countWaiting, List.filter_cons]
  split <;> rename_i h <;> simp [h, Nat.add_comm]

/-- The flag count never exceeds the worker count. -/
theorem countWaiting_le_length (ws : List WState) : countWaiting ws ≤ ws.length :=
  List.length_filter_le _ _

/-- Replacing one worker changes the flag count by the difference of the
old and new flags. -/
theorem countWaiting_set : ∀ (ws : List WState) (i : Nat) (x y : WState),
    ws.get? i = some y →
    countWaiting (ws.set i x) + (if y.waiting then 1 else 0) =
      countWaiting ws + (if x.waiting then 1 else 0)
  | [], i, x, y, h => by simp at h
  | w :: rest, 0, x, y, h => by
    injection h with h
    subst h
    simp only [List.set]
    rw [countWaiting_cons, countWaiting_cons]
    omega
  | w :: rest, i + 1, x, y, h => by
    simp only [List.get?] at h
    have ih := countWaiting_set rest i x y h
    simp only [List.set]
    rw [countWaiting_cons, countWaiting_cons]
    omega

/-- A worker with a set flag contributes to the flag count. -/
theorem one_le_countWaiting (ws : List WState) (i : Nat) (y : WState)
    (h : ws.get? i = some y) (hw : y.waiting = true) : 1 ≤ countWaiting ws := by
  have hmem : y ∈ ws := List.get?_mem h
  have hf : y ∈ ws.filter (fun w => w.waiting) := List.mem_filter.mpr ⟨hmem, hw⟩
  have hpos := List.length_pos.mpr (List.ne_nil_of_mem hf)
  simpa [countWaiting] using hpos

/-- No flag is set in the freshly launched pool. -/
theorem countWaiting_replicate (n : Nat) :
    countWaiting (List.replicate n ⟨.loopHead, false⟩) = 0 := by
  induction n with
  | zero => rfl
  | succ k ih => rw [List.replicate_succ, countWaiting_cons]; simp [ih]

/-- A full flag count means every worker's flag is set. -/
theorem all_waiting_of_countWaiting_eq_length : ∀ (ws : List WState),
    countWaiting ws = ws.length → ∀ w ∈ ws, w.waiting = true
  | [], _, w, hw => absurd hw (List.not_mem_nil w)
  | z :: l, h, w, hw => by
    rw [countWaiting_cons] at h
    have hle := countWaiting_le_length l
    by_cases hz : z.waiting = true
    · rcases List.mem_cons.mp hw with rfl | hmem
      · exact hz
      · refine all_waiting_of_countWaiting_eq_length l ?_ w hmem
        rw [if_pos hz] at h
        simp only [List.length_cons] at h
        omega
    · exfalso
      rw [if_neg hz] at h
      simp only [List.length_cons] at h
      omega

/-- Invariant of every reachable pool state: the worker list keeps its
configured size, and the shared `num_waiting` counter equals the number of
workers whose local `waiting` flag is set. -/
theorem reachable_invariant {n : Nat} {seeds : List FsPath} {s : Sys}
    (h : Reachable n seeds s) :
    s.workers.length = n ∧ s.numWaiting = countWaiting s.workers := by
  induction h with
  | init => exact ⟨by simp [initSys], by simp [initSys, countWaiting_replicate]⟩
  | step hr hstep ih =>
    obtain ⟨hlen, hcnt⟩ := ih
    cases hstep with
    | exitLoop i w hget hn =>
      have hset := countWaiting_set _ i ⟨.done, w⟩ _ hget
      refine ⟨by simpa [List.length_set] using hlen, ?_⟩
      cases w <;> simp at hset ⊢ <;> omega
    | popSome i w p rest hget hq =>
      have hset := countWaiting_set _ i ⟨.working, false⟩ _ hget
      refine ⟨by simpa [List.length_set] using hlen, ?_⟩
      cases w with
      | false => simp at hset ⊢; omega
      | true =>
        have hone := one_le_countWaiting _ i _ hget rfl
        simp at hset ⊢
        omega
    | markIdle i hget hq =>
      have hset := countWaiting_set _ i ⟨.loopHead, true⟩ _ hget
      refine ⟨by simpa [List.length_set] using hlen, ?_⟩
      simp at hset ⊢
      omega
    | finishDir i w folders hget =>
      have hset := countWaiting_set _ i ⟨.loopHead, w⟩ _ hget
      refine ⟨by simpa [List.length_set] using hlen, ?_⟩
      cases w <;> simp at hset ⊢ <;> omega

/-- Replacing one worker with a not-yet-terminated state never makes
another observed worker terminated. -/
theorem phase_preserved_of_set (ws : List WState) (j : Nat) (x : WState) (i : Nat)
    (wpre wpost : WState)
    (hpre : ws.get? i = some wpre)
    (hpost : (ws.set j x).get? i = some wpost)
    (hx : x.phase ≠ .done) (hne : wpre.phase ≠ .done) : wpost.phase ≠ .done := by
  by_cases hij : j = i
  · subst hij
    rw [List.get?_set_eq, hpre] at hpost
    simp only [Option.map_eq_map, Option.map_some, Option.some.injEq] at hpost
    rw [← hpost]
    exact hx
  · rw [List.get?_set_ne _ _ hij, hpre] at hpost
    injection hpost with h
    rw [← h]
    exact hne

/-- C6: in every reachable pool state the shared idle counter equals the
number of workers whose local idle mark (`waiting` flag) is set, and hence
stays between 0 and the configured worker count: an idle transition
increments it exactly once (guarded by the clear flag, main.rs lines
270–273), and a worker that pops an item while marked idle decrements it
before beginning work (lines 112–115). -/
theorem c6_idle_counter_equals_flag_count {n : Nat} {seeds : List FsPath}
    {s : Sys} (h : Reachable n seeds s) :
    s.numWaiting = countWaiting s.workers ∧ s.numWaiting ≤ n := by
  obtain ⟨hlen, hcnt⟩ := reachable_invariant h
  refine ⟨hcnt, ?_⟩
  rw [hcnt, ← hlen]
  exact countWaiting_le_length _

/-- Witness for `c6_idle_counter_equals_flag_count`: the one-worker pool
after its worker marked itself idle on the empty queue. -/
theorem c6_idle_counter_equals_flag_count_witness :
    (Sys.mk [] 1 [⟨.loopHead, true⟩]).numWaiting =
        countWaiting (Sys.mk [] 1 [⟨.loopHead, true⟩]).workers ∧
      (Sys.mk [] 1 [⟨.loopHead, true⟩]).numWaiting ≤ 1 :=
  c6_idle_counter_equals_flag_count
    (Reachable.step Reachable.init (@Step.markIdle 1 (initSys 1 []) 0 rfl rfl))

/-- C5: a worker leaves its processing loop only on a step whose loop-head
load observes the shared idle counter equal to the configured worker count
`n` (main.rs line 108), and in that observed reachable state all `n`
workers are simultaneously marked idle. -/
theorem c5_exit_only_when_all_idle {n : Nat} {seeds : List FsPath} {s s' : Sys}
    (i : Nat) (hreach : Reachable n seeds s) (hstep : Step n s s')
    (hpre : ∃ w, s.workers.get? i = some w ∧ w.phase ≠ .done)
    (hpost : ∃ w, s'.workers.get? i = some w ∧ w.phase = .done) :
    s.numWaiting = n ∧ ∀ w ∈ s.workers, w.waiting = true := by
  obtain ⟨wpre, hgetpre, hnd⟩ := hpre
  obtain ⟨wpost, hgetpost, hd⟩ := hpost
  have hn : s.numWaiting = n := by
    cases hstep with
    | exitLoop j w hget hcount => exact hcount
    | popSome j w p rest hget hq =>
      dsimp only at hgetpost
      exact absurd hd (phase_preserved_of_set _ j ⟨.working, false⟩ i
        wpre wpost hgetpre hgetpost (by simp) hnd)
    | markIdle j hget hq =>
      dsimp only at hgetpost
      exact absurd hd (phase_preserved_of_set _ j ⟨.loopHead, true⟩ i
        wpre wpost hgetpre hgetpost (by simp) hnd)
    | finishDir j w folders hget =>
      dsimp only at hgetpost
      exact absurd hd (phase_preserved_of_set _ j ⟨.loopHead, w⟩ i
        wpre wpost hgetpre hgetpost (by simp) hnd)
  obtain ⟨hlen, hcnt⟩ := reachable_invariant hreach
  refine ⟨hn, all_waiting_of_countWaiting_eq_length s.workers (by omega)⟩

/-- Witness for `c5_exit_only_when_all_idle`: the lone worker of a
one-worker pool exits from the state in which it is marked idle and the
counter reads 1. -/
theorem c5_exit_only_when_all_idle_witness :
    (Sys.mk [] 1 [⟨.loopHead, true⟩]).numWaiting = 1 ∧
      ∀ w ∈ (Sys.mk [] 1 [⟨.loopHead, true⟩]).workers, w.waiting = true :=
  c5_exit_only_when_all_idle 0
    (Reachable.step Reachable.init (@Step.markIdle 1 (initSys 1 []) 0 rfl rfl))
    (@Step.exitLoop 1 (Sys.mk [] 1 [⟨.loopHead, true⟩]) 0 true rfl rfl)
    ⟨⟨.loopHead, true⟩, rfl, by decide⟩
    ⟨⟨.done, true⟩, rfl, rfl⟩

end Dexy
